import Mathlib

/-!
# Verification of the QErase erasure engine (src/main.py)

Shallow embedding of the erasure engine of QErase (`main.py`) and proofs
about it.  The embedding covers:

* the pass-pattern generator `EraseThread.get_passes` and the chunk
  materializer `EraseThread.generate_pattern`;
* the batch orchestration `EraseThread.run` (sizing, per-file overwrite
  loop, lock resolution, folder-removal escalation ladder, cancellation
  polling, signal emission);
* the process-termination helper `terminate_process`.

Modelling conventions:

* Bytes are `Nat` (always `< 256` where produced from the source tables);
  Python `bytes` objects are `List Nat`.
* The ambient RNG (`random.randint(0, 255)`) is an abstract stream
  `Nat → Nat`; the `n`-th call to `randint` returns `rng n % 256`.  A
  draw counter is threaded through the model exactly where the source
  calls the RNG.
* Filesystem paths are `List String` (path components); `os.path.join
  (root, name)` is `root ++ [name]` and `os.path.dirname` is `dropLast`.
* Wall-clock throttling (`should_update_progress`) is abstracted to an
  oracle `su : Nat → Bool`, consulted once per chunk in call order.
* The Qt signals and the destructive filesystem / process actions of the
  engine are modelled as a single ordered trace of events (`Ev`).
* Python `int((processed / total) * 100)` is modelled as floor division
  `processed * 100 / total`; a zero `total` raises `ZeroDivisionError`,
  modelled as the `Out.exn` outcome (all percentages relevant to the
  theorems below are exact in floating point, so the float/exact
  distinction is immaterial to them).
* The cancellation flag `_is_running` is set from the UI thread and read
  at the source's poll points.  Since `stop()` only ever clears the flag,
  a whole run is determined by the index of the first read that observes
  the cleared flag: schedule `some k` means reads `0, …, k-1` see the
  flag still set and reads from `k` on see it cleared; `none` means the
  flag is never cleared.
-/

namespace QErase

/-- `CHUNK_SIZE = 64 * 1024` from `EraseThread.run`. -/
def CHUNK_SIZE : Nat := 64 * 1024

/-- An abstract stream of values for `random.randint(0, 255)`:
the `n`-th call returns `rng n % 256`. -/
abbrev Rng := Nat → Nat

/-- `bytes([random.randint(0, 255) for _ in range(n)])` starting at draw
counter `c`. -/
def randBytes (rng : Rng) (c n : Nat) : List Nat :=
  (List.range n).map fun i => rng (c + i) % 256

/-- The flat 120-entry `special_patterns` table of the Gutmann branch of
`EraseThread.get_passes` (15 comment rows of 8 byte values each). -/
def gutmannSpecial : List Nat :=
  [0x92, 0x49, 0x24, 0x92, 0x49, 0x24, 0x92, 0x49,
   0x49, 0x24, 0x92, 0x49, 0x24, 0x92, 0x49, 0x24,
   0x24, 0x92, 0x49, 0x24, 0x92, 0x49, 0x24, 0x92,
   0x00, 0x00, 0x00, 0x00, 0x00, 0x00, 0x00, 0x00,
   0x11, 0x11, 0x11, 0x11, 0x11, 0x11, 0x11, 0x11,
   0x22, 0x22, 0x22, 0x22, 0x22, 0x22, 0x22, 0x22,
   0x33, 0x33, 0x33, 0x33, 0x33, 0x33, 0x33, 0x33,
   0x44, 0x44, 0x44, 0x44, 0x44, 0x44, 0x44, 0x44,
   0x55, 0x55, 0x55, 0x55, 0x55, 0x55, 0x55, 0x55,
   0x66, 0x66, 0x66, 0x66, 0x66, 0x66, 0x66, 0x66,
   0x77, 0x77, 0x77, 0x77, 0x77, 0x77, 0x77, 0x77,
   0x88, 0x88, 0x88, 0x88, 0x88, 0x88, 0x88, 0x88,
   0x99, 0x99, 0x99, 0x99, 0x99, 0x99, 0x99, 0x99,
   0xAA, 0xAA, 0xAA, 0xAA, 0xAA, 0xAA, 0xAA, 0xAA,
   0xBB, 0xBB, 0xBB, 0xBB, 0xBB, 0xBB, 0xBB, 0xBB]

/-- `EraseThread.get_passes`, dispatching on the method string exactly as
the source does.  Returns the list of pass patterns together with the
updated RNG draw counter.  Every fixed pattern is a 1024-byte buffer
(`b'\x00' * 1024`, `b'\x01' * 1024`, …) and every random pattern is the
result of 1024 fresh `randint` draws made at the time `get_passes` is
called. -/
def get_passes (method : String) (rng : Rng) (c : Nat) :
    List (List Nat) × Nat :=
  if method = "[覆写3次] DoD 5220.22-M" then
    ([List.replicate 1024 0x00,
      List.replicate 1024 0x01,
      List.replicate 1024 0x00,
      List.replicate 1024 0x01,
      List.replicate 1024 0x00,
      List.replicate 1024 0x01,
      randBytes rng c 1024], c + 1024)
  else if method = "[覆写7次] DoD 5220.22-M ECE" then
    ([List.replicate 1024 0x00,
      List.replicate 1024 0xFF,
      randBytes rng c 1024,
      List.replicate 1024 0x00,
      List.replicate 1024 0xFF,
      randBytes rng (c + 1024) 1024,
      List.replicate 1024 0x00], c + 2048)
  else if method = "[覆写35次] Gutmann" then
    (List.replicate 4 (List.replicate 1024 0x00) ++
      [List.replicate 1024 0x55, List.replicate 1024 0xAA] ++
      (List.range 4).map (fun j => randBytes rng (c + 1024 * j) 1024) ++
      gutmannSpecial.map (fun v => List.replicate 1024 v) ++
      (List.range 6).map (fun j => randBytes rng (c + 4096 + 1024 * j) 1024) ++
      List.replicate 4 (List.replicate 1024 0x00), c + 10240)
  else if method = "[覆写7次] German VSITR" then
    ([List.replicate 1024 0x00,
      List.replicate 1024 0xFF,
      randBytes rng c 1024,
      List.replicate 1024 0x00,
      List.replicate 1024 0xFF,
      randBytes rng (c + 1024) 1024,
      List.replicate 1024 0x00], c + 2048)
  else
    ([List.replicate 1024 0x00], c)

/-- `EraseThread.generate_pattern`: `return pattern[:size]`. -/
def generate_pattern (pattern : List Nat) (size : Nat) : List Nat :=
  pattern.take size

/-! ## The batch model: inputs, events, state -/

/-- A filesystem path, as its list of components.  `os.path.join(root,
name)` is `root ++ [name]`, `os.path.dirname` is `List.dropLast`. -/
abbrev Path := List String

/-- A regular file as the engine observes it: its path, its size
(`os.path.getsize`), whether `is_valid_file_path` holds for it, whether
`is_file_in_use` reports it locked, and the PIDs
`get_processes_using_file` would return for it. -/
structure FileInfo where
  path : Path
  size : Nat
  valid : Bool
  locked : Bool
  holders : List Nat
deriving DecidableEq

/-- A directory tree as `os.walk` traverses it: the directory's own
path, the regular files directly inside it, and its subdirectories. -/
inductive Tree where
  | node (path : Path) (files : List FileInfo) (subdirs : List Tree)

/-- The directory's own path. -/
def Tree.rootPath : Tree → Path
  | .node p _ _ => p

/-- One entry of `self.file_paths`: either a regular file or a directory
(with the result of the `is_valid_file_path` re-check of line 187 for
directories carried alongside; for files it is `FileInfo.valid`). -/
inductive PathItem where
  | file (f : FileInfo)
  | dir (t : Tree) (valid : Bool)

/-- The ordered trace of a batch: Qt signal emissions interleaved with
the destructive/introspective actions the engine performs.  Status
messages are abstracted to the path they are formatted from. -/
inductive Ev where
  /-- `file_status.emit("正在粉碎: …")` for a file. -/
  | statusShredding (p : Path)
  /-- `file_status.emit("文件 … 正在被占用…")`. -/
  | statusLocked (p : Path)
  /-- `file_status.emit("正在处理文件夹: …")`. -/
  | statusFolder (p : Path)
  /-- The `is_file_in_use` exclusive-open probe on a file. -/
  | lockCheck (p : Path)
  /-- A `terminate_process` attempt on one holder PID. -/
  | termAttempt (pid : Nat)
  /-- `f.write(chunk)`: the bytes actually written to the file. -/
  | write (p : Path) (data : List Nat)
  /-- `progress.emit(pc)`. -/
  | progress (pc : Nat)
  /-- A successful `os.remove` of a file. -/
  | removeFile (p : Path)
  /-- `error.emit("处理文件失败: …")` from the per-file handler. -/
  | errorProcess (p : Path)
  /-- `error.emit("删除文件夹失败: …")` from the removal ladder. -/
  | errorFolderDelete (p : Path)
  /-- `error.emit("操作已取消")` (cancellation noticed at the top of the
  per-path loop, line 181). -/
  | errorCancelled
  /-- `error.emit("没有有效的文件可以删除")`. -/
  | errorNoFiles
  /-- `folder_deleted.emit(folder)`. -/
  | folderDeleted (p : Path)
  /-- `finished.emit()`. -/
  | finished
deriving DecidableEq

/-- The mutable state threaded through a run: `self.processed_size`, the
index of the next `_is_running` read, the index of the next
`should_update_progress` consultation, and the RNG draw counter. -/
structure St where
  processed : Nat
  pollIdx : Nat
  suIdx : Nat
  rngCtr : Nat
deriving DecidableEq

/-- Cancellation schedule: `some k` means the `k`-th and later reads of
`_is_running` observe the cleared flag; `none` means never cancelled. -/
abbrev Sched := Option Nat

/-- The value a read of `_is_running` at read-index `i` observes. -/
def pollOk : Sched → Nat → Bool
  | none, _ => true
  | some k, i => decide (i < k)

/-- How a control-flow region of `EraseThread.run` ends: normally, by a
bare `return` after observing the cleared flag, or by raising an
exception (`ZeroDivisionError` in the progress computation). -/
inductive Out where
  | normal
  | cancelled
  | exn
deriving DecidableEq

/-- `int((processed / total) * 100)`, raising `ZeroDivisionError` when
`total = 0`. -/
def percent (total processed : Nat) : Except Unit Nat :=
  if total = 0 then .error () else .ok (processed * 100 / total)

/-- The per-batch parameters fixed for a whole run: the selected method
string, the RNG stream, the throttle oracle, and the batch total size. -/
structure Ctx where
  method : String
  rng : Rng
  su : Nat → Bool
  total : Nat

/-- Result of one control-flow region: emitted events, updated state,
and how the region ended. -/
structure Res where
  evs : List Ev
  st : St
  out : Out
deriving DecidableEq

/-! ## The overwrite loops (lines 210–229 / 269–287 of the source) -/

/-- The inner `while written < file_size` loop of `EraseThread.run`:
poll the flag, take `chunk_size = min(CHUNK_SIZE, file_size - written)`,
materialize `generate_pattern(pattern, chunk_size)`, write it, advance
`processed_size` by `chunk_size` (not by the bytes actually written),
and emit a throttled progress percentage when the oracle allows. -/
def chunkLoop (ctx : Ctx) (sched : Sched) (p : Path) (pattern : List Nat)
    (fileSize : Nat) (written : Nat) (st : St) : Res :=
  if _h : written < fileSize then
    if pollOk sched st.pollIdx then
      let st1 : St := { st with pollIdx := st.pollIdx + 1 }
      let csz := min CHUNK_SIZE (fileSize - written)
      let chunk := generate_pattern pattern csz
      let st2 : St := { st1 with processed := st1.processed + csz }
      if ctx.su st2.suIdx then
        match percent ctx.total st2.processed with
        | .error _ => ⟨[.write p chunk], { st2 with suIdx := st2.suIdx + 1 }, .exn⟩
        | .ok pc =>
          let r := chunkLoop ctx sched p pattern fileSize (written + csz)
            { st2 with suIdx := st2.suIdx + 1 }
          ⟨.write p chunk :: .progress pc :: r.evs, r.st, r.out⟩
      else
        let r := chunkLoop ctx sched p pattern fileSize (written + csz)
          { st2 with suIdx := st2.suIdx + 1 }
        ⟨.write p chunk :: r.evs, r.st, r.out⟩
    else ⟨[], { st with pollIdx := st.pollIdx + 1 }, .cancelled⟩
  else ⟨[], st, .normal⟩
termination_by fileSize - written
decreasing_by all_goals (simp only [CHUNK_SIZE]; omega)

/-- The `for i, pattern in enumerate(passes)` loop: poll the flag before
each pass, run the chunk loop, then emit the unconditional pass-end
progress percentage (the division that raises when the batch total is
zero). -/
def passLoop (ctx : Ctx) (sched : Sched) (p : Path) (fileSize : Nat) :
    List (List Nat) → St → Res
  | [], st => ⟨[], st, .normal⟩
  | pattern :: rest, st =>
    if pollOk sched st.pollIdx then
      let st1 : St := { st with pollIdx := st.pollIdx + 1 }
      let r := chunkLoop ctx sched p pattern fileSize 0 st1
      match r.out with
      | .normal =>
        match percent ctx.total r.st.processed with
        | .error _ => ⟨r.evs, r.st, .exn⟩
        | .ok pc =>
          let r2 := passLoop ctx sched p fileSize rest r.st
          ⟨r.evs ++ .progress pc :: r2.evs, r2.st, r2.out⟩
      | o => ⟨r.evs, r.st, o⟩
    else ⟨[], { st with pollIdx := st.pollIdx + 1 }, .cancelled⟩

/-- The body of the per-file `try` block: `os.path.getsize`,
`self.get_passes()` (consuming RNG draws), all passes, then `os.remove`
(removals succeed in this ideal-filesystem model). -/
def destroyFile (ctx : Ctx) (sched : Sched) (p : Path) (fileSize : Nat)
    (st : St) : Res :=
  let gp := get_passes ctx.method ctx.rng st.rngCtr
  let r := passLoop ctx sched p fileSize gp.1 { st with rngCtr := gp.2 }
  match r.out with
  | .normal => ⟨r.evs ++ [.removeFile p], r.st, .normal⟩
  | o => ⟨r.evs, r.st, o⟩

/-- Result of processing one or more files: events, state, and whether a
bare cancellation `return` was taken. -/
structure FRes where
  evs : List Ev
  st : St
  cancelled : Bool
deriving DecidableEq

/-- The per-file `try/except`: an exception is caught, reported as a
per-file error event, and the batch continues; a cancellation `return`
propagates. -/
def processFileBody (ctx : Ctx) (sched : Sched) (p : Path)
    (fileSize : Nat) (st : St) : FRes :=
  let r := destroyFile ctx sched p fileSize st
  match r.out with
  | .normal => ⟨r.evs, r.st, false⟩
  | .exn => ⟨r.evs ++ [.errorProcess p], r.st, false⟩
  | .cancelled => ⟨r.evs, r.st, true⟩

/-- Processing of a directly selected file (lines 249–296): status
emission, then the `is_file_in_use` probe and — when locked — holder
enumeration and termination attempts, then the overwrite/delete body. -/
def processTopFile (ctx : Ctx) (sched : Sched) (f : FileInfo) (st : St) :
    FRes :=
  let lockEvs : List Ev :=
    if f.locked then .statusLocked f.path :: f.holders.map .termAttempt
    else []
  let body := processFileBody ctx sched f.path f.size st
  ⟨.statusShredding f.path :: .lockCheck f.path :: (lockEvs ++ body.evs),
    body.st, body.cancelled⟩

/-- Processing of a file discovered inside a selected directory (lines
199–239): status emission then the overwrite/delete body — the source
performs no lock resolution on this path. -/
def processNestedFile (ctx : Ctx) (sched : Sched) (f : FileInfo)
    (st : St) : FRes :=
  let body := processFileBody ctx sched f.path f.size st
  ⟨.statusShredding f.path :: body.evs, body.st, body.cancelled⟩

/-- The `for file in files` loop over one `os.walk` triple, skipping
entries failing `is_valid_file_path` (line 201). -/
def processNestedFiles (ctx : Ctx) (sched : Sched) :
    List FileInfo → St → FRes
  | [], st => ⟨[], st, false⟩
  | f :: fs, st =>
    if f.valid then
      let r := processNestedFile ctx sched f st
      if r.cancelled then ⟨r.evs, r.st, true⟩
      else
        let r2 := processNestedFiles ctx sched fs r.st
        ⟨r.evs ++ r2.evs, r2.st, r2.cancelled⟩
    else processNestedFiles ctx sched fs st

/-! ## Directory walk and the first (file-destruction) phase -/

mutual
/-- `os.walk(path, topdown=False)`: the `(root, dirs, files)` triples,
children before parents, with `dirs` as full joined paths. -/
def walkBU : Tree → List (Path × List Path × List FileInfo)
  | .node p files subs => walkBUList subs ++ [(p, subs.map Tree.rootPath, files)]
def walkBUList : List Tree → List (Path × List Path × List FileInfo)
  | [] => []
  | t :: ts => walkBU t ++ walkBUList ts
end

/-- `folders_to_delete.add(p)`: the Python set, modelled as a
duplicate-free list in insertion order (set iteration order is
abstracted to insertion order; no claim below depends on it). -/
def addFolder (folders : List Path) (p : Path) : List Path :=
  if p ∈ folders then folders else folders ++ [p]

/-- Result of a region that also accumulates the folder set. -/
structure WRes where
  evs : List Ev
  folders : List Path
  st : St
  cancelled : Bool
deriving DecidableEq

/-- The `for root, dirs, files in os.walk(...)` loop (lines 197–246):
per triple, first destroy the files, then record the subdirectories. -/
def processTriples (ctx : Ctx) (sched : Sched) :
    List (Path × List Path × List FileInfo) → List Path → St → WRes
  | [], folders, st => ⟨[], folders, st, false⟩
  | (_, dirPaths, files) :: rest, folders, st =>
    let r := processNestedFiles ctx sched files st
    if r.cancelled then ⟨r.evs, folders, r.st, true⟩
    else
      let folders1 := dirPaths.foldl addFolder folders
      let r2 := processTriples ctx sched rest folders1 r.st
      ⟨r.evs ++ r2.evs, r2.folders, r2.st, r2.cancelled⟩

/-- Processing of a selected directory (lines 192–247): record the
directory itself, then walk it bottom-up. -/
def processDir (ctx : Ctx) (sched : Sched) (t : Tree)
    (folders : List Path) (st : St) : WRes :=
  processTriples ctx sched (walkBU t) (addFolder folders t.rootPath) st

/-- The `for idx, file_path in enumerate(self.file_paths)` loop (lines
180–296): poll the flag per path (emitting the cancellation error event
when it is observed cleared there), skip entries failing the
`is_valid_file_path` re-check, and dispatch on directory/file. -/
def filePhase (ctx : Ctx) (sched : Sched) :
    List PathItem → List Path → St → WRes
  | [], folders, st => ⟨[], folders, st, false⟩
  | item :: rest, folders, st =>
    if pollOk sched st.pollIdx then
      let st1 : St := { st with pollIdx := st.pollIdx + 1 }
      match item with
      | .file f =>
        if f.valid then
          let r := processTopFile ctx sched f st1
          if r.cancelled then ⟨r.evs, folders, r.st, true⟩
          else
            let r2 := filePhase ctx sched rest folders r.st
            ⟨r.evs ++ r2.evs, r2.folders, r2.st, r2.cancelled⟩
        else filePhase ctx sched rest folders st1
      | .dir t v =>
        if v then
          let r := processDir ctx sched t folders st1
          if r.cancelled then ⟨r.evs, r.folders, r.st, true⟩
          else
            let r2 := filePhase ctx sched rest r.folders r.st
            ⟨r.evs ++ r2.evs, r2.folders, r2.st, r2.cancelled⟩
        else filePhase ctx sched rest folders st1
    else ⟨[.errorCancelled], folders, { st with pollIdx := st.pollIdx + 1 }, true⟩

/-! ## The second (directory-removal) phase -/

/-- The outcome flags of the removal attempts for one folder:
whether `os.path.exists` still holds at removal time, whether `os.rmdir`
succeeds (the folder is empty), whether `os.rename` / `shutil.move`
succeed, whether `shutil.rmtree` leaves the tree gone, whether the
platform removal command returns 0 with the tree gone, and the RNG used
by `random.choices` for the temporary name. -/
structure FolderFate where
  stillExists : Bool
  rmdirOk : Bool
  renameOk : Bool
  moveOk : Bool
  rmtreeOk : Bool
  cmdOk : Bool
  nameRng : Nat → Nat

/-- `string.ascii_letters + string.digits`. -/
def alnumChars : List Char :=
  "abcdefghijklmnopqrstuvwxyzABCDEFGHIJKLMNOPQRSTUVWXYZ0123456789".toList

/-- `''.join(random.choices(string.ascii_letters + string.digits, k=8))`. -/
def randomName8 (g : Nat → Nat) : String :=
  String.mk ((List.range 8).map fun i => alnumChars.getD (g i % 62) 'a')

/-- The escalation ladder for one folder (lines 300–373): plain `rmdir`
first; otherwise rename (or `shutil.move`) to a random 8-character name
in the same parent, rebinding `folder` to the new path, then `rmtree`,
then the platform command; the success signal and the failure error are
emitted with whatever `folder` is bound to at that point. -/
def reapFolder (fenv : Path → FolderFate) (folder : Path) : List Ev :=
  let fate := fenv folder
  if !fate.stillExists then []
  else
    .statusFolder folder ::
    (if fate.rmdirOk then [.folderDeleted folder]
    else if fate.renameOk || fate.moveOk then
      let temp := folder.dropLast ++ [randomName8 fate.nameRng]
      if fate.rmtreeOk then [.folderDeleted temp]
      else if fate.cmdOk then [.folderDeleted temp]
      else [.errorFolderDelete temp]
    else [])

/-- The `for folder in folders_to_delete` loop (lines 300–373).  It
performs no `_is_running` read. -/
def reapAll (fenv : Path → FolderFate) (folders : List Path) : List Ev :=
  (folders.map (reapFolder fenv)).flatten

/-! ## Sizing and the whole batch -/

mutual
/-- Total size of the files beneath a directory, as the sizing loop
(lines 166–171) walks it. -/
def treeSize : Tree → Nat
  | .node _ files subs => (files.map FileInfo.size).sum + treeListSize subs
def treeListSize : List Tree → Nat
  | [] => 0
  | t :: ts => treeSize t + treeListSize ts
end

/-- `self.total_size` (lines 162–171): sizes of directly selected files
plus all files under selected directories (the sizing loop performs no
validity check). -/
def totalSize (paths : List PathItem) : Nat :=
  (paths.map fun item =>
    match item with
    | .file f => f.size
    | .dir t _ => treeSize t).sum

/-- The observable outcome of one `EraseThread.run` call. -/
structure RunOut where
  /-- Events of the file-destruction phase (or the sole fatal error). -/
  fileEvents : List Ev
  /-- Events of the directory-removal phase. -/
  folderEvents : List Ev
  /-- Whether `finished.emit()` was reached (line 375–376). -/
  finishedEmitted : Bool
  /-- Total number of `_is_running` reads performed. -/
  polls : Nat
  /-- Whether the file phase ran to completion (line 298 reached). -/
  completed : Bool
deriving DecidableEq

/-- The full emission-ordered trace of the run. -/
def RunOut.events (r : RunOut) : List Ev :=
  r.fileEvents ++ r.folderEvents ++
    (if r.finishedEmitted then [.finished] else [])

/-- `EraseThread.run`: the empty-list fatal check, sizing, the file
phase, the folder phase, and the guarded `finished.emit()`.  `paths` is
`self.file_paths`, i.e. the selection after the constructor's
`is_valid_file_path` filter. -/
def runModel (method : String) (rng : Rng) (su : Nat → Bool)
    (fenv : Path → FolderFate) (sched : Sched) (paths : List PathItem) :
    RunOut :=
  if paths.isEmpty then ⟨[.errorNoFiles], [], false, 0, false⟩
  else
    let ctx : Ctx := ⟨method, rng, su, totalSize paths⟩
    let r := filePhase ctx sched paths [] ⟨0, 0, 0, 0⟩
    if r.cancelled then ⟨r.evs, [], false, r.st.pollIdx, false⟩
    else
      ⟨r.evs, reapAll fenv r.folders, pollOk sched r.st.pollIdx,
        r.st.pollIdx + 1, true⟩

/-! ## Trace observers -/

/-- The payloads of the write actions of a trace, in order. -/
def writesOf (evs : List Ev) : List (List Nat) :=
  evs.filterMap fun e =>
    match e with
    | .write _ d => some d
    | _ => none

/-- Total number of bytes actually written to disk in a trace. -/
def bytesWritten (evs : List Ev) : Nat :=
  ((writesOf evs).map List.length).sum

/-- Whether an event is the `is_file_in_use` probe. -/
def Ev.isLockCheck : Ev → Bool
  | .lockCheck _ => true
  | _ => false

/-- Whether an event is `finished.emit()`. -/
def Ev.isFinished : Ev → Bool
  | .finished => true
  | _ => false

/-! ## The process-termination helper -/

/-- How a holder process behaves: whether `is_running` holds when
`terminate_process` is entered, and whether the process exits within the
3-second `wait` after `terminate()`. -/
structure ProcBehavior where
  running0 : Bool
  stopsOnTerminate : Bool
deriving DecidableEq

/-- The observable actions `terminate_process` can take on a process. -/
inductive TermAct where
  | terminate
  | wait
  | kill
deriving DecidableEq

/-- `terminate_process(process)` (lines 95–106), under psutil semantics:
`process.wait(timeout=3)` returns when the process exits within the
timeout and raises `psutil.TimeoutExpired` when it is still alive after
the timeout; a raised exception is caught by the `except` and the final
`return False` runs.  Returns the boolean result, the actions performed,
and whether the process is stopped afterwards. -/
def terminate_process (b : ProcBehavior) : Bool × List TermAct × Bool :=
  if b.running0 then
    if b.stopsOnTerminate then
      -- terminate(); wait() returns; is_running() is now False, so no
      -- kill; return True
      (true, [.terminate, .wait], true)
    else
      -- terminate(); wait() raises TimeoutExpired after 3 s; the except
      -- swallows it; return False — kill() is never reached
      (false, [.terminate, .wait], false)
  else
    -- is_running() is False: fall through to the final return False,
    -- although the process is already stopped
    (false, [], true)

/-! ## Concrete inputs for the closed evaluations -/

/-- A deterministic RNG stream for closed evaluations. -/
def rngId : Rng := fun i => i

/-- Throttle oracle that always allows the throttled emission (the
realistic first-call behaviour of `should_update_progress`, whose
`last_progress_update` starts at 0). -/
def suAlways : Nat → Bool := fun _ => true

/-- Throttle oracle that never allows the throttled emission. -/
def suNever : Nat → Bool := fun _ => false

/-- Folder environment where no recorded folder still exists. -/
def fenvGone : Path → FolderFate :=
  fun _ => ⟨false, false, false, false, false, false, fun _ => 0⟩

/-- Folder environment where every folder exists and is empty. -/
def fenvEmpty : Path → FolderFate :=
  fun _ => ⟨true, true, false, false, false, false, fun _ => 0⟩

/-- The UI's single-pass standard label; it matches none of the branch
strings of `get_passes` and therefore selects the default single
all-zero pass. -/
def singlePassMethod : String := "[覆写1次] 简单覆盖"

/-- Scenario for C2: a batch of one valid, unlocked 2048-byte file under
the single-pass standard, never cancelled. -/
def scenC2 : RunOut :=
  runModel singlePassMethod rngId suAlways fenvGone none
    [.file ⟨["f"], 2048, true, false, []⟩]

/-- Scenario for C5: a nonempty batch whose total byte volume is zero
(one valid, unlocked zero-byte file), never cancelled. -/
def scenC5 : RunOut :=
  runModel singlePassMethod rngId suAlways fenvGone none
    [.file ⟨["z"], 0, true, false, []⟩]

/-- Scenario for C6: a selected directory containing one valid, unlocked
1-byte file, never cancelled. -/
def scenC6 : RunOut :=
  runModel singlePassMethod rngId suNever fenvEmpty none
    [.dir (.node ["d"] [⟨["d", "f"], 1, true, false, []⟩] []) true]

/-- The random pass (index 6) of the DoD 3-pass table, drawn from the
deterministic stream. -/
def dod3RandomPass : List Nat :=
  ((get_passes "[覆写3次] DoD 5220.22-M" rngId 0).1).getD 6 []

/-- Scenario for C3: the chunk loop of one pass over a 128 KiB file
(two full 64 KiB chunk requests) using the DoD 3-pass random pattern. -/
def scenC3 : Res :=
  chunkLoop ⟨"[覆写3次] DoD 5220.22-M", rngId, suNever, 131072⟩ none
    ["f"] dod3RandomPass 131072 0 ⟨0, 0, 0, 0⟩

/-! # Claims -/

/-- Claim C1 (code bug).  The claim says materializing any pass pattern for
a chunk of size `N` returns exactly `N` bytes, in particular for `N =
CHUNK_SIZE = 64 KiB`.  In the source every pass buffer is only 1024
bytes and `generate_pattern` is `pattern[:size]`, so requesting the
nominal 64 KiB chunk returns 1024 bytes: here the (sole) pass of the
single-pass standard materialized at `CHUNK_SIZE` yields 1024 bytes, not
65536, while a request of 1 byte does yield 1 byte. -/
theorem C1_generate_pattern_truncates_to_1024 :
    ((get_passes singlePassMethod rngId 0).1.map
        fun pat => (generate_pattern pat CHUNK_SIZE).length) = [1024] ∧
    ((get_passes singlePassMethod rngId 0).1.map
        fun pat => (generate_pattern pat 1).length) = [1] ∧
    CHUNK_SIZE = 65536 := by
  have h : (get_passes singlePassMethod rngId 0).1 =
      [List.replicate 1024 0x00] := rfl
  refine ⟨?_, ?_, rfl⟩ <;>
  · rw [h]
    simp only [List.map_cons, List.map_nil, generate_pattern,
      List.length_take, List.length_replicate]
    norm_num [CHUNK_SIZE]

/-- Claim C4 (code bug).  The claim (and the source's own comments) say the
Gutmann standard has exactly 35 passes; the source's `for pattern in
special_patterns` iterates over all 120 byte values of the 15-row table,
one pass each, so `get_passes` returns 4+1+1+4+120+6+4 = 140 passes for
every RNG stream. -/
theorem C4_gutmann_has_140_passes :
    ∀ (rng : Rng) (c : Nat),
      ((get_passes "[覆写35次] Gutmann" rng c).1).length = 140 := by
  intro rng c
  simp only [get_passes, String.reduceEq, if_false, if_true, reduceIte]
  simp only [List.length_append, List.length_map, List.length_replicate,
    List.length_range, List.length_cons, List.length_nil, gutmannSpecial]

/-- Claim C7 (code bug).  The claim says `terminate_process` waits up to
3 s, escalates to `kill` if the process is still running after the
timeout, and returns true iff the process is confirmed stopped.  Under
psutil semantics `process.wait(timeout=3)` raises `TimeoutExpired` when
the process is still alive, so the `except` swallows it and the function
returns `False` without ever calling `kill` (first conjunct), and a
process that is already stopped on entry gets `False` although it is
stopped (third conjunct), contradicting the if-and-only-if. -/
theorem C7_terminate_process_never_escalates_to_kill :
    terminate_process ⟨true, false⟩ = (false, [.terminate, .wait], false) ∧
    TermAct.kill ∉ (terminate_process ⟨true, false⟩).2.1 ∧
    terminate_process ⟨false, true⟩ = (false, [], true) := by
  refine ⟨rfl, ?_, rfl⟩
  decide

/-! ## Event-shape lemmas: which events the inner components can emit -/

theorem chunkLoop_evs (ctx : Ctx) (sched : Sched) (p : Path)
    (pattern : List Nat) (fileSize : Nat) :
    ∀ (written : Nat) (st : St),
      ∀ e ∈ (chunkLoop ctx sched p pattern fileSize written st).evs,
        e.isFinished = false ∧ e.isLockCheck = false := by
  intro written st
  induction written, st using chunkLoop.induct ctx sched p pattern fileSize with
  | case1 w st h hp st1 csz st2 hsu a hperc =>
    rw [chunkLoop]; simp [h, hp, hsu, hperc, Ev.isFinished, Ev.isLockCheck]
  | case2 w st h hp st1 csz st2 hsu pc hperc ih =>
    rw [chunkLoop]; simp_all [Ev.isFinished, Ev.isLockCheck]
  | case3 w st h hp st1 csz st2 hsu ih =>
    rw [chunkLoop]; simp_all [Ev.isFinished, Ev.isLockCheck]
  | case4 w st h hp =>
    rw [chunkLoop]; simp [h, hp]
  | case5 w st h =>
    rw [chunkLoop]; simp [h]

theorem passLoop_evs (ctx : Ctx) (sched : Sched) (p : Path)
    (fileSize : Nat) :
    ∀ (pats : List (List Nat)) (st : St),
      ∀ e ∈ (passLoop ctx sched p fileSize pats st).evs,
        e.isFinished = false ∧ e.isLockCheck = false := by
  intro pats
  induction pats with
  | nil => intro st e he; simp [passLoop] at he
  | cons pattern rest ih =>
    intro st e he
    rw [passLoop] at he
    by_cases hp : pollOk sched st.pollIdx = true
    · simp only [hp, if_pos] at he
      rcases hr : (chunkLoop ctx sched p pattern fileSize 0
          { st with pollIdx := st.pollIdx + 1 }).out with _ | _ | _ <;>
        simp only [hr] at he
      · rcases hq : percent ctx.total (chunkLoop ctx sched p pattern fileSize 0
            { st with pollIdx := st.pollIdx + 1 }).st.processed with _ | pc <;>
          simp only [hq] at he
        · exact chunkLoop_evs ctx sched p pattern fileSize _ _ e he
        · simp only [List.mem_append, List.mem_cons] at he
          rcases he with he | he | he
          · exact chunkLoop_evs ctx sched p pattern fileSize _ _ e he
          · subst he; simp [Ev.isFinished, Ev.isLockCheck]
          · exact ih _ e he
      · exact chunkLoop_evs ctx sched p pattern fileSize _ _ e he
      · exact chunkLoop_evs ctx sched p pattern fileSize _ _ e he
    · simp [hp] at he

theorem destroyFile_evs (ctx : Ctx) (sched : Sched) (p : Path)
    (fileSize : Nat) (st : St) :
    ∀ e ∈ (destroyFile ctx sched p fileSize st).evs,
      e.isFinished = false ∧ e.isLockCheck = false := by
  intro e he
  rw [destroyFile] at he
  rcases hr : (passLoop ctx sched p fileSize
      (get_passes ctx.method ctx.rng st.rngCtr).1
      { st with rngCtr := (get_passes ctx.method ctx.rng st.rngCtr).2 }).out with
    _ | _ | _ <;> simp only [hr, List.mem_append, List.mem_cons] at he
  · rcases he with he | he
    · exact passLoop_evs ctx sched p fileSize _ _ e he
    · simp at he; subst he; simp [Ev.isFinished, Ev.isLockCheck]
  · exact passLoop_evs ctx sched p fileSize _ _ e he
  · exact passLoop_evs ctx sched p fileSize _ _ e he

theorem processFileBody_evs (ctx : Ctx) (sched : Sched) (p : Path)
    (fileSize : Nat) (st : St) :
    ∀ e ∈ (processFileBody ctx sched p fileSize st).evs,
      e.isFinished = false ∧ e.isLockCheck = false := by
  intro e he
  rw [processFileBody] at he
  rcases hr : (destroyFile ctx sched p fileSize st).out with _ | _ | _ <;>
    simp only [hr, List.mem_append, List.mem_cons] at he
  · exact destroyFile_evs ctx sched p fileSize st e he
  · exact destroyFile_evs ctx sched p fileSize st e he
  · rcases he with he | he
    · exact destroyFile_evs ctx sched p fileSize st e he
    · simp at he; subst he; simp [Ev.isFinished, Ev.isLockCheck]

theorem processNestedFile_evs (ctx : Ctx) (sched : Sched) (f : FileInfo)
    (st : St) :
    ∀ e ∈ (processNestedFile ctx sched f st).evs,
      e.isFinished = false ∧ e.isLockCheck = false := by
  intro e he
  rw [processNestedFile] at he
  simp only [List.mem_cons] at he
  rcases he with he | he
  · subst he; simp [Ev.isFinished, Ev.isLockCheck]
  · exact processFileBody_evs ctx sched f.path f.size st e he

theorem processNestedFiles_evs (ctx : Ctx) (sched : Sched) :
    ∀ (files : List FileInfo) (st : St),
      ∀ e ∈ (processNestedFiles ctx sched files st).evs,
        e.isFinished = false ∧ e.isLockCheck = false := by
  intro files
  induction files with
  | nil => intro st e he; simp [processNestedFiles] at he
  | cons f fs ih =>
    intro st e he
    rw [processNestedFiles] at he
    by_cases hv : f.valid = true
    · simp only [hv, if_pos] at he
      by_cases hc : (processNestedFile ctx sched f st).cancelled = true
      · simp only [hc, if_pos] at he
        exact processNestedFile_evs ctx sched f st e he
      · simp only [hc, if_neg, Bool.not_eq_true, List.mem_append] at he
        rcases he with he | he
        · exact processNestedFile_evs ctx sched f st e he
        · exact ih _ e he
    · simp only [hv, if_neg, Bool.not_eq_true] at he
      exact ih _ e he

theorem processTriples_evs (ctx : Ctx) (sched : Sched) :
    ∀ (ts : List (Path × List Path × List FileInfo)) (folders : List Path)
      (st : St),
      ∀ e ∈ (processTriples ctx sched ts folders st).evs,
        e.isFinished = false ∧ e.isLockCheck = false := by
  intro ts
  induction ts with
  | nil => intro folders st e he; simp [processTriples] at he
  | cons t rest ih =>
    intro folders st e he
    rw [processTriples] at he
    by_cases hc : (processNestedFiles ctx sched t.2.2 st).cancelled = true
    · simp only [hc, if_pos] at he
      exact processNestedFiles_evs ctx sched _ _ e he
    · simp only [hc, if_neg, Bool.not_eq_true, List.mem_append] at he
      rcases he with he | he
      · exact processNestedFiles_evs ctx sched _ _ e he
      · exact ih _ _ e he

theorem processDir_evs (ctx : Ctx) (sched : Sched) (t : Tree)
    (folders : List Path) (st : St) :
    ∀ e ∈ (processDir ctx sched t folders st).evs,
      e.isFinished = false ∧ e.isLockCheck = false := by
  intro e he
  rw [processDir] at he
  exact processTriples_evs ctx sched _ _ _ e he

theorem processTopFile_noFin (ctx : Ctx) (sched : Sched) (f : FileInfo)
    (st : St) :
    ∀ e ∈ (processTopFile ctx sched f st).evs, e.isFinished = false := by
  intro e he
  rw [processTopFile] at he
  simp only [List.mem_cons, List.mem_append] at he
  rcases he with he | he | he
  · subst he; simp [Ev.isFinished]
  · subst he; simp [Ev.isFinished]
  · rcases he with he | he
    · by_cases hl : f.locked = true
      · simp only [hl, if_pos, List.mem_cons, List.mem_map] at he
        rcases he with he | ⟨pid, _, he⟩
        · subst he; simp [Ev.isFinished]
        · subst he; simp [Ev.isFinished]
      · simp [hl] at he
    · exact (processFileBody_evs ctx sched f.path f.size st e he).1

theorem filePhase_noFin (ctx : Ctx) (sched : Sched) :
    ∀ (paths : List PathItem) (folders : List Path) (st : St),
      ∀ e ∈ (filePhase ctx sched paths folders st).evs,
        e.isFinished = false := by
  intro paths
  induction paths with
  | nil => intro folders st e he; simp [filePhase] at he
  | cons item rest ih =>
    intro folders st e he
    rw [filePhase] at he
    by_cases hp : pollOk sched st.pollIdx = true
    · simp only [hp, if_pos] at he
      match item with
      | .file f =>
        by_cases hv : f.valid = true
        · simp only [hv, if_pos] at he
          by_cases hc : (processTopFile ctx sched f
              { st with pollIdx := st.pollIdx + 1 }).cancelled = true
          · simp only [hc, if_pos] at he
            exact processTopFile_noFin ctx sched f _ e he
          · simp only [hc, if_neg, Bool.not_eq_true, List.mem_append] at he
            rcases he with he | he
            · exact processTopFile_noFin ctx sched f _ e he
            · exact ih _ _ e he
        · simp only [hv, if_neg, Bool.not_eq_true] at he
          exact ih _ _ e he
      | .dir t v =>
        by_cases hv : v = true
        · simp only [hv, if_pos] at he
          by_cases hc : (processDir ctx sched t folders
              { st with pollIdx := st.pollIdx + 1 }).cancelled = true
          · simp only [hc, if_pos] at he
            exact (processDir_evs ctx sched t _ _ e he).1
          · simp only [hc, if_neg, Bool.not_eq_true, List.mem_append] at he
            rcases he with he | he
            · exact (processDir_evs ctx sched t _ _ e he).1
            · exact ih _ _ e he
        · simp only [hv, if_neg, Bool.not_eq_true] at he
          exact ih _ _ e he
    · simp only [hp, if_neg, Bool.not_eq_true, List.mem_singleton] at he
      subst he; simp [Ev.isFinished]

theorem reapAll_noFin (fenv : Path → FolderFate) (folders : List Path) :
    ∀ e ∈ reapAll fenv folders, e.isFinished = false := by
  intro e he
  rw [reapAll] at he
  simp only [List.mem_flatten, List.mem_map] at he
  obtain ⟨l, ⟨folder, _, rfl⟩, hel⟩ := he
  simp only [reapFolder] at hel
  cases hex : (fenv folder).stillExists with
  | false => simp [hex] at hel
  | true =>
    simp [hex] at hel
    rcases hel with rfl | hel
    · simp [Ev.isFinished]
    · split at hel
      · simp only [List.mem_singleton] at hel
        subst hel; simp [Ev.isFinished]
      · split at hel
        · split at hel
          · simp only [List.mem_singleton] at hel
            subst hel; simp [Ev.isFinished]
          · split at hel <;> simp only [List.mem_singleton] at hel <;>
              (subst hel; simp [Ev.isFinished])
        · simp at hel

/-! ## Cancellation-agreement lemmas: a region that was not cancelled
behaves exactly as in an uncancelled run -/

theorem pollOk_none (i : Nat) : pollOk none i = true := rfl

theorem chunkLoop_agree (ctx : Ctx) (k : Nat) (p : Path)
    (pattern : List Nat) (fileSize : Nat) :
    ∀ (written : Nat) (st : St),
      (chunkLoop ctx (some k) p pattern fileSize written st).out ≠ .cancelled →
      chunkLoop ctx (some k) p pattern fileSize written st =
        chunkLoop ctx none p pattern fileSize written st := by
  intro written st
  induction written, st using chunkLoop.induct ctx (some k) p pattern fileSize with
  | case1 w st h hp st1 csz st2 hsu a hperc =>
    intro _
    conv_lhs => rw [chunkLoop]
    conv_rhs => rw [chunkLoop]
    simp [h, hp, hsu, hperc, pollOk_none]
  | case2 w st h hp st1 csz st2 hsu pc hperc ih =>
    intro hout
    rw [chunkLoop] at hout
    simp [h, hp, hsu, hperc] at hout
    conv_lhs => rw [chunkLoop]
    conv_rhs => rw [chunkLoop]
    simp [h, hp, hsu, hperc, pollOk_none, ih hout]
  | case3 w st h hp st1 csz st2 hsu ih =>
    intro hout
    rw [chunkLoop] at hout
    simp [h, hp, hsu] at hout
    conv_lhs => rw [chunkLoop]
    conv_rhs => rw [chunkLoop]
    simp [h, hp, hsu, pollOk_none, ih hout]
  | case4 w st h hp =>
    intro hout
    rw [chunkLoop] at hout
    simp [h, hp] at hout
  | case5 w st h =>
    intro _
    conv_lhs => rw [chunkLoop]
    conv_rhs => rw [chunkLoop]
    simp [h]


theorem passLoop_agree (ctx : Ctx) (k : Nat) (p : Path) (fileSize : Nat) :
    ∀ (pats : List (List Nat)) (st : St),
      (passLoop ctx (some k) p fileSize pats st).out ≠ .cancelled →
      passLoop ctx (some k) p fileSize pats st =
        passLoop ctx none p fileSize pats st := by
  intro pats
  induction pats with
  | nil => intro st _; rfl
  | cons pattern rest ih =>
    intro st hout
    by_cases hp : pollOk (some k) st.pollIdx = true
    · rw [passLoop] at hout
      simp only [hp, if_pos] at hout
      conv_lhs => rw [passLoop]
      conv_rhs => rw [passLoop]
      simp only [hp, if_pos, pollOk_none, if_true]
      rcases hr : (chunkLoop ctx (some k) p pattern fileSize 0
          { st with pollIdx := st.pollIdx + 1 }).out with _ | _ | _
      · have hcl := chunkLoop_agree ctx k p pattern fileSize 0
          { st with pollIdx := st.pollIdx + 1 } (by rw [hr]; simp)
        simp only [hr] at hout
        rcases hq : percent ctx.total (chunkLoop ctx (some k) p pattern fileSize 0
            { st with pollIdx := st.pollIdx + 1 }).st.processed with _ | pc
        · simp only [hq] at hout
          rw [← hcl, hr, hq]
        · simp only [hq] at hout
          simp only [hout, not_false_iff] at *
          rw [← hcl, hr, hq, ih _ hout]
      · simp only [hr] at hout
        exact absurd rfl hout
      · simp only [hr] at hout
        have hcl := chunkLoop_agree ctx k p pattern fileSize 0
          { st with pollIdx := st.pollIdx + 1 } (by rw [hr]; simp)
        rw [← hcl, hr]
    · rw [passLoop] at hout
      simp only [hp, if_neg, Bool.not_eq_true] at hout
      exact absurd rfl hout


theorem destroyFile_agree (ctx : Ctx) (k : Nat) (p : Path)
    (fileSize : Nat) (st : St) :
    (destroyFile ctx (some k) p fileSize st).out ≠ .cancelled →
    destroyFile ctx (some k) p fileSize st =
      destroyFile ctx none p fileSize st := by
  intro hout
  rw [destroyFile] at hout ⊢
  conv_rhs => rw [destroyFile]
  rcases hr : (passLoop ctx (some k) p fileSize
      (get_passes ctx.method ctx.rng st.rngCtr).1
      { st with rngCtr := (get_passes ctx.method ctx.rng st.rngCtr).2 }).out with
    _ | _ | _
  · have hpl := passLoop_agree ctx k p fileSize _ _ (by rw [hr]; simp)
    rw [← hpl, hr]
  · simp only [hr] at hout; exact absurd rfl hout
  · have hpl := passLoop_agree ctx k p fileSize _ _ (by rw [hr]; simp)
    rw [← hpl, hr]

theorem processFileBody_agree (ctx : Ctx) (k : Nat) (p : Path)
    (fileSize : Nat) (st : St) :
    (processFileBody ctx (some k) p fileSize st).cancelled = false →
    processFileBody ctx (some k) p fileSize st =
      processFileBody ctx none p fileSize st := by
  intro hout
  rw [processFileBody] at hout ⊢
  conv_rhs => rw [processFileBody]
  rcases hr : (destroyFile ctx (some k) p fileSize st).out with _ | _ | _
  · have hd := destroyFile_agree ctx k p fileSize st (by rw [hr]; simp)
    rw [← hd, hr]
  · simp only [hr] at hout; exact absurd hout (by simp)
  · have hd := destroyFile_agree ctx k p fileSize st (by rw [hr]; simp)
    rw [← hd, hr]

theorem processTopFile_agree (ctx : Ctx) (k : Nat) (f : FileInfo)
    (st : St) :
    (processTopFile ctx (some k) f st).cancelled = false →
    processTopFile ctx (some k) f st = processTopFile ctx none f st := by
  intro hout
  rw [processTopFile] at hout ⊢
  conv_rhs => rw [processTopFile]
  simp only at hout
  rw [processFileBody_agree ctx k f.path f.size st hout]

theorem processNestedFile_agree (ctx : Ctx) (k : Nat) (f : FileInfo)
    (st : St) :
    (processNestedFile ctx (some k) f st).cancelled = false →
    processNestedFile ctx (some k) f st =
      processNestedFile ctx none f st := by
  intro hout
  rw [processNestedFile] at hout ⊢
  conv_rhs => rw [processNestedFile]
  simp only at hout
  rw [processFileBody_agree ctx k f.path f.size st hout]

theorem processNestedFiles_agree (ctx : Ctx) (k : Nat) :
    ∀ (files : List FileInfo) (st : St),
      (processNestedFiles ctx (some k) files st).cancelled = false →
      processNestedFiles ctx (some k) files st =
        processNestedFiles ctx none files st := by
  intro files
  induction files with
  | nil => intro st _; rfl
  | cons f fs ih =>
    intro st hout
    rw [processNestedFiles] at hout ⊢
    conv_rhs => rw [processNestedFiles]
    by_cases hv : f.valid = true
    · simp only [hv, if_pos] at hout ⊢
      by_cases hc : (processNestedFile ctx (some k) f st).cancelled = true
      · simp only [hc, if_pos] at hout
        exact absurd hout (by simp [hc])
      · simp only [Bool.not_eq_true] at hc
        simp only [hc, Bool.false_eq_true, if_neg, if_false] at hout ⊢
        have hn := processNestedFile_agree ctx k f st hc
        rw [hn] at hc hout ⊢
        rw [ih _ hout]
        simp [hc]
    · simp only [Bool.not_eq_true] at hv
      simp only [hv, Bool.false_eq_true, if_neg, if_false] at hout ⊢
      exact ih _ hout

theorem processTriples_agree (ctx : Ctx) (k : Nat) :
    ∀ (ts : List (Path × List Path × List FileInfo)) (folders : List Path)
      (st : St),
      (processTriples ctx (some k) ts folders st).cancelled = false →
      processTriples ctx (some k) ts folders st =
        processTriples ctx none ts folders st := by
  intro ts
  induction ts with
  | nil => intro folders st _; rfl
  | cons t rest ih =>
    intro folders st hout
    rw [processTriples] at hout ⊢
    conv_rhs => rw [processTriples]
    by_cases hc : (processNestedFiles ctx (some k) t.2.2 st).cancelled = true
    · simp only [hc, if_pos] at hout
      exact absurd hout (by simp)
    · simp only [Bool.not_eq_true] at hc
      simp only [hc, Bool.false_eq_true, if_neg, if_false] at hout ⊢
      have hn := processNestedFiles_agree ctx k t.2.2 st hc
      rw [hn] at hc hout ⊢
      rw [ih _ _ hout]
      simp [hc]

theorem processDir_agree (ctx : Ctx) (k : Nat) (t : Tree)
    (folders : List Path) (st : St) :
    (processDir ctx (some k) t folders st).cancelled = false →
    processDir ctx (some k) t folders st =
      processDir ctx none t folders st := by
  intro hout
  rw [processDir] at hout ⊢
  conv_rhs => rw [processDir]
  exact processTriples_agree ctx k _ _ _ hout

theorem filePhase_agree (ctx : Ctx) (k : Nat) :
    ∀ (paths : List PathItem) (folders : List Path) (st : St),
      (filePhase ctx (some k) paths folders st).cancelled = false →
      filePhase ctx (some k) paths folders st =
        filePhase ctx none paths folders st := by
  intro paths
  induction paths with
  | nil => intro folders st _; rfl
  | cons item rest ih =>
    intro folders st hout
    by_cases hp : pollOk (some k) st.pollIdx = true
    · rw [filePhase] at hout ⊢
      conv_rhs => rw [filePhase]
      simp only [hp, if_pos, pollOk_none, if_true] at hout ⊢
      match item with
      | .file f =>
        by_cases hv : f.valid = true
        · simp only [hv, if_pos] at hout ⊢
          by_cases hc : (processTopFile ctx (some k) f
              { st with pollIdx := st.pollIdx + 1 }).cancelled = true
          · simp only [hc, if_pos] at hout
            exact absurd hout (by simp)
          · simp only [Bool.not_eq_true] at hc
            simp only [hc, Bool.false_eq_true, if_neg, if_false] at hout ⊢
            have ht := processTopFile_agree ctx k f _ hc
            rw [ht] at hc hout ⊢
            rw [ih _ _ hout]
            simp [hc]
        · simp only [Bool.not_eq_true] at hv
          simp only [hv, Bool.false_eq_true, if_neg, if_false] at hout ⊢
          exact ih _ _ hout
      | .dir t v =>
        by_cases hv : v = true
        · simp only [hv, if_pos] at hout ⊢
          by_cases hc : (processDir ctx (some k) t folders
              { st with pollIdx := st.pollIdx + 1 }).cancelled = true
          · simp only [hc, if_pos] at hout
            exact absurd hout (by simp)
          · simp only [Bool.not_eq_true] at hc
            simp only [hc, Bool.false_eq_true, if_neg, if_false] at hout ⊢
            have hd := processDir_agree ctx k t folders _ hc
            rw [hd] at hc hout ⊢
            rw [ih _ _ hout]
            simp [hc]
        · simp only [Bool.not_eq_true] at hv
          simp only [hv, Bool.false_eq_true, if_neg, if_false] at hout ⊢
          exact ih _ _ hout
    · rw [filePhase] at hout
      simp only [hp, if_neg, Bool.not_eq_true] at hout
      exact absurd hout (by simp)

theorem writesOf_nil : writesOf [] = [] := rfl

theorem writesOf_write (p : Path) (d : List Nat) (l : List Ev) :
    writesOf (Ev.write p d :: l) = d :: writesOf l := rfl

theorem writesOf_progress (n : Nat) (l : List Ev) :
    writesOf (Ev.progress n :: l) = writesOf l := rfl

set_option maxRecDepth 8000 in
/-- Claim C2 (code bug).  The claim says a 2048-byte file destroyed under
the single-pass standard gets exactly one 2048-byte all-zero write.  In
the source the chunk loop requests `min(CHUNK_SIZE, 2048) = 2048` bytes
but `generate_pattern` returns only the 1024-byte pass buffer, so one
1024-byte write is issued (and accounted as 2048): the total bytes
actually written are 1024, not `P × S = 2048`.  The file is still
deleted, `finished()` is still emitted, and `progress(100)` is emitted
twice (throttled and pass-end), not once. -/
theorem C2_single_pass_writes_1024_of_2048 :
    scenC2.events =
      [.statusShredding ["f"], .lockCheck ["f"],
       .write ["f"] (List.replicate 1024 0x00), .progress 100, .progress 100,
       .removeFile ["f"], .finished] ∧
    bytesWritten scenC2.events = 1024 := by
  have h : scenC2.events =
      [.statusShredding ["f"], .lockCheck ["f"],
       .write ["f"] (List.replicate 1024 0x00), .progress 100, .progress 100,
       .removeFile ["f"], .finished] := by
    simp [scenC2, runModel, RunOut.events, filePhase, processTopFile,
      processFileBody, destroyFile, passLoop, chunkLoop, percent, pollOk,
      totalSize, get_passes, singlePassMethod, generate_pattern, reapAll,
      suAlways, rngId, fenvGone, CHUNK_SIZE, List.take_replicate]
  refine ⟨h, ?_⟩
  rw [h]
  simp [bytesWritten, writesOf]

set_option maxRecDepth 8000 in
/-- Claim C3 (counterexample).  The claim says any two distinct chunks
within the same random pass are independently drawn, never a reuse of
the same buffer.  For a 128 KiB file the chunk loop issues two chunk
requests against the DoD 3-pass random pattern, and both writes are the
identical 1024-byte buffer drawn once by `get_passes`: the write list is
literally the same list twice. -/
theorem C3_counterexample :
    dod3RandomPass = randBytes rngId 0 1024 ∧
    writesOf scenC3.evs = [dod3RandomPass, dod3RandomPass] ∧
    (writesOf scenC3.evs).getD 0 [] = (writesOf scenC3.evs).getD 1 [] := by
  have hp : dod3RandomPass = randBytes rngId 0 1024 := by
    simp [dod3RandomPass, get_passes]
  have hl : dod3RandomPass.length = 1024 := by
    rw [hp]; simp [randBytes]
  have hw : writesOf scenC3.evs = [dod3RandomPass, dod3RandomPass] := by
    simp [scenC3, chunkLoop, pollOk, percent, generate_pattern, writesOf,
      CHUNK_SIZE, suNever, List.take_of_length_le, hl]
  exact ⟨hp, hw, by rw [hw]; rfl⟩

theorem chunkLoop_writes_prefix (ctx : Ctx) (sched : Sched) (p : Path)
    (pattern : List Nat) (fileSize : Nat) :
    ∀ (written : Nat) (st : St),
      ∀ d ∈ writesOf (chunkLoop ctx sched p pattern fileSize written st).evs,
        ∃ c, d = pattern.take c := by
  intro written st
  induction written, st using chunkLoop.induct ctx sched p pattern fileSize with
  | case1 w st h hp st1 csz st2 hsu a hperc =>
    intro d hd
    rw [chunkLoop] at hd
    simp only [h, hp, hsu, hperc, dif_pos, if_pos, if_true, writesOf_write,
      writesOf_nil, List.mem_singleton] at hd
    exact ⟨CHUNK_SIZE ⊓ (fileSize - w), hd⟩
  | case2 w st h hp st1 csz st2 hsu pc hperc ih =>
    intro d hd
    rw [chunkLoop] at hd
    simp only [h, hp, hsu, hperc, dif_pos, if_pos, if_true, writesOf_write,
      writesOf_progress, List.mem_cons] at hd
    rcases hd with rfl | hd
    · exact ⟨CHUNK_SIZE ⊓ (fileSize - w), rfl⟩
    · exact ih d hd
  | case3 w st h hp st1 csz st2 hsu ih =>
    intro d hd
    rw [chunkLoop] at hd
    simp only [h, hp, hsu, dif_pos, if_pos, if_true, if_neg, if_false,
      Bool.not_eq_true, writesOf_write, writesOf_progress,
      List.mem_cons] at hd
    rcases hd with rfl | hd
    · exact ⟨CHUNK_SIZE ⊓ (fileSize - w), rfl⟩
    · exact ih d hd
  | case4 w st h hp =>
    intro d hd
    rw [chunkLoop] at hd
    simp [h, hp, writesOf_nil] at hd
  | case5 w st h =>
    intro d hd
    rw [chunkLoop] at hd
    simp [h, writesOf_nil] at hd

/-- Claim C3 (amended).  Random bytes are drawn once per pass when
`get_passes` is called (once per file), 1024 bytes per random pass;
every chunk of a pass is a prefix slice of that single buffer, so any
two chunks of equal requested size within the same pass have identical
bytes — randomness is never redrawn per chunk. -/
theorem C3_amended_chunks_reuse_buffer :
    ∀ (ctx : Ctx) (sched : Sched) (p : Path) (pattern : List Nat)
      (fileSize written : Nat) (st : St) (d₁ d₂ : List Nat),
      d₁ ∈ writesOf (chunkLoop ctx sched p pattern fileSize written st).evs →
      d₂ ∈ writesOf (chunkLoop ctx sched p pattern fileSize written st).evs →
      d₁.length = d₂.length → d₁ = d₂ := by
  intro ctx sched p pattern fileSize written st d₁ d₂ h₁ h₂ hlen
  obtain ⟨c₁, rfl⟩ := chunkLoop_writes_prefix ctx sched p pattern fileSize
    written st d₁ h₁
  obtain ⟨c₂, rfl⟩ := chunkLoop_writes_prefix ctx sched p pattern fileSize
    written st _ h₂
  rw [List.length_take, List.length_take] at hlen
  exact List.take_eq_take.mpr hlen

set_option maxRecDepth 8000 in
/-- Witness for `C3_amended_chunks_reuse_buffer` at the concrete 128 KiB
scenario: both membership hypotheses and the length hypothesis hold for
the two chunk writes of the random pass, and the theorem yields their
equality. -/
theorem C3_amended_witness :
    dod3RandomPass ∈ writesOf scenC3.evs ∧
    (writesOf scenC3.evs).getD 0 [] = (writesOf scenC3.evs).getD 1 [] := by
  have hp : dod3RandomPass = randBytes rngId 0 1024 := by
    simp [dod3RandomPass, get_passes]
  have hl : dod3RandomPass.length = 1024 := by
    rw [hp]; simp [randBytes]
  have hw : writesOf scenC3.evs = [dod3RandomPass, dod3RandomPass] := by
    simp [scenC3, chunkLoop, pollOk, percent, generate_pattern, writesOf,
      CHUNK_SIZE, suNever, List.take_of_length_le, hl]
  have hw' : writesOf (chunkLoop
      ⟨"[覆写3次] DoD 5220.22-M", rngId, suNever, 131072⟩ none ["f"]
      dod3RandomPass 131072 0 ⟨0, 0, 0, 0⟩).evs =
      [dod3RandomPass, dod3RandomPass] := hw
  refine ⟨by rw [hw]; simp, ?_⟩
  exact C3_amended_chunks_reuse_buffer
    ⟨"[覆写3次] DoD 5220.22-M", rngId, suNever, 131072⟩ none ["f"]
    dod3RandomPass 131072 0 ⟨0, 0, 0, 0⟩ _ _
    (by rw [hw, hw']; simp)
    (by rw [hw, hw']; simp)
    (by rw [hw]; rfl)

set_option maxRecDepth 8000 in
/-- Claim C5 (counterexample).  The claim says a zero total byte volume
aborts the batch with an immediate fatal error before any destructive
action.  A nonempty batch of one valid zero-byte file has total volume
zero, yet the run proceeds: the file is opened, the pass-end progress
computation divides by the zero total, the resulting exception is
reported as a per-file error, and the batch still emits `finished()` —
no fatal "nothing to erase" abort occurs. -/
theorem C5_counterexample :
    totalSize [.file ⟨["z"], 0, true, false, []⟩] = 0 ∧
    scenC5.events = [.statusShredding ["z"], .lockCheck ["z"],
      .errorProcess ["z"], .finished] ∧
    Ev.finished ∈ scenC5.events := by
  have h : scenC5.events = [.statusShredding ["z"], .lockCheck ["z"],
      .errorProcess ["z"], .finished] := by
    simp [scenC5, runModel, RunOut.events, filePhase, processTopFile,
      processFileBody, destroyFile, passLoop, chunkLoop, percent, pollOk,
      totalSize, get_passes, singlePassMethod, reapAll, suAlways, rngId,
      fenvGone]
  exact ⟨rfl, h, by rw [h]; simp⟩

set_option maxRecDepth 8000 in
/-- Claim C5 (amended).  Only an empty valid-path list terminates the
batch immediately with the fatal "no valid files" error (before any
write or delete, under every schedule); a nonempty batch with zero total
byte volume instead fails each file with a per-file error raised by the
division by the zero total in the progress computation and still runs to
completion, emitting `finished()`. -/
theorem C5_amended_only_empty_list_is_fatal :
    ∀ (method : String) (rng : Rng) (su : Nat → Bool)
      (fenv : Path → FolderFate) (sched : Sched) (p : Path),
      runModel method rng su fenv sched [] =
        ⟨[.errorNoFiles], [], false, 0, false⟩ ∧
      (runModel singlePassMethod rng su fenv none
          [.file ⟨p, 0, true, false, []⟩]).events
        = [.statusShredding p, .lockCheck p, .errorProcess p, .finished] := by
  intro method rng su fenv sched p
  constructor
  · rfl
  · simp [runModel, RunOut.events, filePhase, processTopFile,
      processFileBody, destroyFile, passLoop, chunkLoop, percent, pollOk,
      totalSize, get_passes, singlePassMethod, reapAll]

set_option maxRecDepth 8000 in
/-- Claim C6 (counterexample).  The claim says lock resolution precedes
the overwrite of every file, nested ones included.  In this batch a file
discovered inside a selected directory is overwritten and deleted while
the trace contains no `is_file_in_use` probe at all. -/
theorem C6_counterexample :
    scenC6.events =
      [.statusShredding ["d", "f"], .write ["d", "f"] (List.replicate 1 0x00),
       .progress 100, .removeFile ["d", "f"], .statusFolder ["d"],
       .folderDeleted ["d"], .finished] ∧
    Ev.write ["d", "f"] (List.replicate 1 0x00) ∈ scenC6.events ∧
    scenC6.events.countP Ev.isLockCheck = 0 := by
  have h : scenC6.events =
      [.statusShredding ["d", "f"], .write ["d", "f"] (List.replicate 1 0x00),
       .progress 100, .removeFile ["d", "f"], .statusFolder ["d"],
       .folderDeleted ["d"], .finished] := by
    simp [scenC6, runModel, RunOut.events, filePhase, processDir,
      processTriples, processNestedFiles, processNestedFile, walkBU,
      walkBUList, addFolder, Tree.rootPath, processFileBody, destroyFile,
      passLoop, chunkLoop, percent, pollOk, totalSize, treeSize,
      treeListSize, get_passes, singlePassMethod, generate_pattern,
      reapAll, reapFolder, fenvEmpty, suNever, rngId, CHUNK_SIZE,
      List.take_replicate]
  refine ⟨h, by rw [h]; simp, by rw [h]; decide⟩

/-- Claim C6 (amended).  Lock resolution is performed only for directly
selected files: `processTopFile` probes `is_file_in_use` right after the
status emission and before any other action, while the processing of a
selected directory tree never performs a lock check on any file it
walks. -/
theorem C6_amended_lock_check_only_top_level :
    (∀ (ctx : Ctx) (sched : Sched) (f : FileInfo) (st : St),
      ∃ rest, (processTopFile ctx sched f st).evs =
        Ev.statusShredding f.path :: Ev.lockCheck f.path :: rest) ∧
    (∀ (ctx : Ctx) (sched : Sched) (t : Tree) (folders : List Path)
      (st : St),
      (processDir ctx sched t folders st).evs.countP Ev.isLockCheck = 0) := by
  constructor
  · intro ctx sched f st
    exact ⟨_, rfl⟩
  · intro ctx sched t folders st
    rw [List.countP_eq_zero]
    intro e he
    rw [(processDir_evs ctx sched t folders st e he).2]
    simp

/-- Claim C8 (confirmed).  `finished()` is emitted only if the
cancellation flag was never observed cleared during the batch: if the
flag is cleared before the run's last `_is_running` read (`k < polls`,
where read `k` is the first to observe it), the trace contains no
finished event, however much work already succeeded. -/
theorem C8_finished_only_if_never_cancelled :
    ∀ (method : String) (rng : Rng) (su : Nat → Bool)
      (fenv : Path → FolderFate) (paths : List PathItem) (k : Nat),
      k < (runModel method rng su fenv (some k) paths).polls →
      (runModel method rng su fenv (some k) paths).events.countP
        Ev.isFinished = 0 := by
  intro method rng su fenv paths k hk
  rw [runModel] at hk ⊢
  by_cases he : paths.isEmpty
  · simp [he] at hk
  · simp only [he, Bool.false_eq_true, if_neg, if_false] at hk ⊢
    by_cases hc : (filePhase ⟨method, rng, su, totalSize paths⟩ (some k)
        paths [] ⟨0, 0, 0, 0⟩).cancelled = true
    · simp only [hc, if_pos, if_true] at hk ⊢
      rw [RunOut.events]
      simp only [List.append_nil, if_neg, Bool.false_eq_true, if_false]
      rw [List.countP_eq_zero]
      intro e hev
      rw [filePhase_noFin _ (some k) paths [] ⟨0, 0, 0, 0⟩ e hev]
      simp
    · simp only [Bool.not_eq_true] at hc
      simp only [hc, Bool.false_eq_true, if_neg, if_false] at hk ⊢
      have hg : pollOk (some k) (filePhase ⟨method, rng, su, totalSize paths⟩
          (some k) paths [] ⟨0, 0, 0, 0⟩).st.pollIdx = false := by
        simp only [pollOk, decide_eq_false_iff_not, not_lt]
        omega
      rw [RunOut.events]
      simp only [hg, Bool.false_eq_true, if_neg, if_false, List.append_nil]
      have h1 : List.countP Ev.isFinished
          (filePhase ⟨method, rng, su, totalSize paths⟩ (some k) paths []
            ⟨0, 0, 0, 0⟩).evs = 0 := by
        rw [List.countP_eq_zero]
        intro e hev
        rw [filePhase_noFin _ (some k) paths [] ⟨0, 0, 0, 0⟩ e hev]
        simp
      have h2 : List.countP Ev.isFinished (reapAll fenv
          (filePhase ⟨method, rng, su, totalSize paths⟩ (some k) paths []
            ⟨0, 0, 0, 0⟩).folders) = 0 := by
        rw [List.countP_eq_zero]
        intro e hev
        rw [reapAll_noFin fenv _ e hev]
        simp
      rw [List.countP_append, h1, h2]


set_option maxRecDepth 8000 in
/-- Witness for `C8_finished_only_if_never_cancelled`: cancelling a
one-file batch before its first poll (`k = 0 < 1 = polls`) yields a
trace with no finished event. -/
theorem C8_witness :
    0 < (runModel singlePassMethod rngId suAlways fenvGone (some 0)
      [.file ⟨["f"], 2048, true, false, []⟩]).polls ∧
    (runModel singlePassMethod rngId suAlways fenvGone (some 0)
      [.file ⟨["f"], 2048, true, false, []⟩]).events.countP
        Ev.isFinished = 0 := by
  have hp : (runModel singlePassMethod rngId suAlways fenvGone (some 0)
      [.file ⟨["f"], 2048, true, false, []⟩]).polls = 1 := by
    simp [runModel, filePhase, pollOk, totalSize]
  refine ⟨by rw [hp]; omega, ?_⟩
  exact C8_finished_only_if_never_cancelled singlePassMethod rngId suAlways
    fenvGone [.file ⟨["f"], 2048, true, false, []⟩] 0 (by rw [hp]; omega)

/-- Claim C9 (confirmed).  When the folder still exists, is not empty
(`os.rmdir` fails) and the rename or move succeeds, a successful removal
by `shutil.rmtree` or by the platform command emits `folder_deleted`
with the renamed path — the parent directory joined with the random
8-character alphanumeric name — while the empty-directory strategy 1
emits the originally selected path. -/
theorem C9_renamed_path_emitted :
    ∀ (fenv : Path → FolderFate) (folder : Path),
      ((fenv folder).stillExists = true → (fenv folder).rmdirOk = false →
        ((fenv folder).renameOk || (fenv folder).moveOk) = true →
        ((fenv folder).rmtreeOk || (fenv folder).cmdOk) = true →
        reapFolder fenv folder =
          [.statusFolder folder,
           .folderDeleted (folder.dropLast ++
             [randomName8 (fenv folder).nameRng])] ∧
        (randomName8 (fenv folder).nameRng).length = 8) ∧
      ((fenv folder).stillExists = true → (fenv folder).rmdirOk = true →
        reapFolder fenv folder =
          [.statusFolder folder, .folderDeleted folder]) := by
  intro fenv folder
  constructor
  · intro hex hrm hren hdel
    constructor
    · rw [reapFolder]
      simp only [hex, hrm, Bool.not_true, Bool.false_eq_true, if_neg,
        if_false, hren, if_pos, if_true]
      rcases Bool.or_eq_true_iff.mp hdel with ht | ht <;> simp [ht]
    · rfl
  · intro hex hrm
    rw [reapFolder]
    simp [hex, hrm]

/-- Witness for `C9_renamed_path_emitted` at two concrete folder fates:
a non-empty folder removed after rename emits the renamed 8-character
path, and an empty folder emits its original path. -/
theorem C9_witness :
    reapFolder (fun _ => ⟨true, false, true, false, true, false, fun _ => 0⟩)
        ["a", "b"] =
      [.statusFolder ["a", "b"],
       .folderDeleted (["a", "b"].dropLast ++ [randomName8 (fun _ => 0)])] ∧
    (randomName8 (fun _ => 0)).length = 8 ∧
    reapFolder fenvEmpty ["a", "b"] =
      [.statusFolder ["a", "b"], .folderDeleted ["a", "b"]] := by
  have h1 := (C9_renamed_path_emitted
    (fun _ => ⟨true, false, true, false, true, false, fun _ => 0⟩)
    ["a", "b"]).1 rfl rfl rfl rfl
  have h2 := (C9_renamed_path_emitted fenvEmpty ["a", "b"]).2 rfl rfl
  exact ⟨h1.1, h1.2, h2⟩

/-- Claim C10 (confirmed).  The directory-removal phase performs no
cancellation poll: whenever a run under schedule `some k` completes its
file phase, its folder-phase events (and file-phase events) are exactly
those of the never-cancelled run, and if the final guard then suppresses
`finished()`, the trace is the uncancelled trace minus that single final
event. -/
theorem C10_folder_phase_ignores_cancellation :
    ∀ (method : String) (rng : Rng) (su : Nat → Bool)
      (fenv : Path → FolderFate) (paths : List PathItem) (k : Nat),
      (runModel method rng su fenv (some k) paths).completed = true →
      (runModel method rng su fenv (some k) paths).folderEvents =
        (runModel method rng su fenv none paths).folderEvents ∧
      (runModel method rng su fenv (some k) paths).fileEvents =
        (runModel method rng su fenv none paths).fileEvents ∧
      (runModel method rng su fenv none paths).finishedEmitted = true ∧
      ((runModel method rng su fenv (some k) paths).finishedEmitted = false →
        (runModel method rng su fenv (some k) paths).events ++ [Ev.finished] =
          (runModel method rng su fenv none paths).events) := by
  intro method rng su fenv paths k hcomp
  rw [runModel] at hcomp
  by_cases he : paths.isEmpty
  · simp [he] at hcomp
  · simp only [he, Bool.false_eq_true, if_neg, if_false] at hcomp
    by_cases hc : (filePhase ⟨method, rng, su, totalSize paths⟩ (some k)
        paths [] ⟨0, 0, 0, 0⟩).cancelled = true
    · simp [hc] at hcomp
    · simp only [Bool.not_eq_true] at hc
      have hag := filePhase_agree ⟨method, rng, su, totalSize paths⟩ k paths
        [] ⟨0, 0, 0, 0⟩ hc
      have hcn : (filePhase ⟨method, rng, su, totalSize paths⟩ none paths []
          ⟨0, 0, 0, 0⟩).cancelled = false := by rw [← hag]; exact hc
      rw [runModel, runModel]
      simp only [he, Bool.false_eq_true, if_neg, if_false]
      rw [hag]
      simp only [hcn, Bool.false_eq_true, if_neg, if_false]
      refine ⟨trivial, trivial, pollOk_none _, ?_⟩
      intro hfin
      rw [RunOut.events, RunOut.events]
      simp only at hfin ⊢
      rw [hfin] at *
      simp only [pollOk_none, if_true, Bool.false_eq_true, if_false,
        List.append_nil, List.append_assoc]

def c10paths : List PathItem :=
  [.dir (.node ["d"] [⟨["d", "f"], 1, true, false, []⟩] []) true]

set_option maxRecDepth 8000 in
/-- Witness for `C10_folder_phase_ignores_cancellation`: cancellation
arriving after the file phase (`k = 3`) still removes the recorded
folder exactly as the uncancelled run does and only drops the final
finished event. -/
theorem C10_witness :
    (runModel singlePassMethod rngId suNever fenvEmpty (some 3)
      c10paths).completed = true ∧
    (runModel singlePassMethod rngId suNever fenvEmpty (some 3)
        c10paths).folderEvents =
      (runModel singlePassMethod rngId suNever fenvEmpty none
        c10paths).folderEvents ∧
    (runModel singlePassMethod rngId suNever fenvEmpty (some 3)
      c10paths).finishedEmitted = false ∧
    (runModel singlePassMethod rngId suNever fenvEmpty (some 3)
        c10paths).events ++ [Ev.finished] =
      (runModel singlePassMethod rngId suNever fenvEmpty none
        c10paths).events := by
  have hcomp : (runModel singlePassMethod rngId suNever fenvEmpty (some 3)
      c10paths).completed = true := by
    simp [c10paths, runModel, filePhase, processDir, processTriples,
      processNestedFiles, processNestedFile, walkBU, walkBUList, addFolder,
      Tree.rootPath, processFileBody, destroyFile, passLoop, chunkLoop,
      percent, pollOk, totalSize, treeSize, treeListSize, get_passes,
      singlePassMethod, generate_pattern, suNever, rngId, CHUNK_SIZE,
      List.take_replicate]
  have hfin : (runModel singlePassMethod rngId suNever fenvEmpty (some 3)
      c10paths).finishedEmitted = false := by
    simp [c10paths, runModel, filePhase, processDir, processTriples,
      processNestedFiles, processNestedFile, walkBU, walkBUList, addFolder,
      Tree.rootPath, processFileBody, destroyFile, passLoop, chunkLoop,
      percent, pollOk, totalSize, treeSize, treeListSize, get_passes,
      singlePassMethod, generate_pattern, suNever, rngId, CHUNK_SIZE,
      List.take_replicate]
  have h := C10_folder_phase_ignores_cancellation singlePassMethod rngId
    suNever fenvEmpty c10paths 3 hcomp
  exact ⟨hcomp, h.1, hfin, h.2.2.2 hfin⟩

end QErase
